import Mathlib

/-!
A shallow embedding of the chess position representation and move generator of
`Board_and_moves.py` (classes `BoardRep`, `Piece`, `Move`).

Modelling conventions:
* Python strings are modelled as `List Char` (`Str`).
* Python object mutation is modelled by explicit state passing.  `Piece`
  objects are compared structurally in the source (`__eq__` compares the
  instance dictionaries, and the fields `piecename` / `colorname` /
  `mobility` / `attack` / `defend` are functions of `piecetype` resp. the
  constants `None`), so a `Piece` is faithfully represented by the pair
  (`piecetype`, `position`) plus the derived `color` field; mutation of the
  shared object referenced both from `square_list` and `piece_list` is
  modelled by updating both containers at the aliased occurrence.
* Python square indices are `Int` (they can go negative in intermediate
  arithmetic); CPython wraps indices `-len ≤ i < 0` around, which `pyIdx`
  reproduces.  For `|i| ≥ len` CPython raises `IndexError`, killing the
  process; no execution examined by the theorems below reaches such an
  index, and the total models return `none` / leave the list unchanged
  there (noted at each helper).
* A CPython crash (uncaught exception / `exit()`) is modelled by `none` in
  an `Option` result.
-/

abbrev Str : Type := List Char

/-- Python list subscript `l[i]`: wraps negative indices, `none` where CPython
would raise `IndexError`. -/
def pyIdx {α : Type} (l : List α) (i : Int) : Option α :=
  if i ≥ 0 then l.get? i.toNat
  else if -(l.length : Int) ≤ i then l.get? (l.length - (-i).toNat)
  else none

/-- Python list item assignment `l[i] = a`: wraps negative indices; where
CPython would raise `IndexError` the list is returned unchanged (no execution
examined below reaches that case). -/
def pySet {α : Type} (l : List α) (i : Int) (a : α) : List α :=
  if i ≥ 0 then l.set i.toNat a
  else if -(l.length : Int) ≤ i then l.set (l.length - (-i).toNat) a
  else l

/-- Python `list.remove(x)`: removes the first element equal to `x`.  CPython
raises `ValueError` when `x` is absent; the executions examined below always
remove a present element, and this model then leaves the list unchanged. -/
def pyRemove {α : Type} [DecidableEq α] : List α → α → List α
  | [], _ => []
  | a :: l, x => if a = x then l else a :: pyRemove l x

/-- Replace the first occurrence of `old` by `new` (models mutating a Python
object aliased at one position of a list). -/
def replaceFirst {α : Type} [DecidableEq α] : List α → α → α → List α
  | [], _, _ => []
  | a :: l, old, new => if a = old then new :: l else a :: replaceFirst l old new

/-- `str.split("/")`-style split at a separator character, keeping empty
pieces, as Python does for one-character separators. -/
def pySplitOn (sep : Char) : Str → List Str
  | [] => [[]]
  | c :: rest =>
    if c = sep then [] :: pySplitOn sep rest
    else
      match pySplitOn sep rest with
      | [] => [[c]]
      | p :: ps => (c :: p) :: ps

/-- Python `str.split()` with no argument: split on runs of whitespace,
discarding empty pieces.  The FEN strings handled here only use single
spaces. -/
def pySplitWs (s : Str) : List Str :=
  (pySplitOn ' ' s).filter (fun p => ¬ p.isEmpty)

/-- Decimal digits of a natural number, as Python `str(n)` produces. -/
def natToStr (n : Nat) : Str :=
  (Nat.toDigits 10 n)

/-- Python `int(s)` restricted to non-empty all-digit strings; other inputs
raise `ValueError` in CPython (modelled as `none`). -/
def parseNat (s : Str) : Option Nat :=
  if s.isEmpty then none
  else if s.all (fun c => c.isDigit) then
    some (s.foldl (fun acc c => acc * 10 + (c.toNat - '0'.toNat)) 0)
  else none

/-- The FEN piece alphabet, `BoardRep.PIECES`. -/
def PIECES : Str := "PNBRQKpnbrqk".toList

/-- `BoardRep.NUM_TO_SQUARE`: square names indexed a1 = 0, b1 = 1, ..., h8 = 63
(built by `product('12345678', 'abcdefgh')` in the source). -/
def NUM_TO_SQUARE : List Str :=
  ("12345678".toList).flatMap (fun r => ("abcdefgh".toList).map (fun f => [f, r]))

/-- First index (from `k`) of `s` in a list of strings. -/
def strIndexOf : List Str → Str → Nat → Option Nat
  | [], _, _ => none
  | t :: ts, s, k => if t = s then some k else strIndexOf ts s (k + 1)

/-- `BoardRep.SQUARE_TO_NUM` as a partial function: '-' maps to `some none`,
a square name to `some (some i)`, anything else raises `KeyError` in CPython
(modelled `none`). -/
def SQUARE_TO_NUM (s : Str) : Option (Option Int) :=
  if s = ['-'] then some none
  else
    match strIndexOf NUM_TO_SQUARE s 0 with
    | some i => some (some (i : Int))
    | none => none

/-- The `Piece` class.  `color`, stored by the constructor, is
`piecetype.islower()`; the display-only fields (`piecename`, `colorname`,
`mobility`, `attack`, `defend`) are determined by `piecetype` (resp. always
`None`) and do not influence `__eq__`, so they are omitted. -/
structure Piece where
  piecetype : Char
  color : Bool
  position : Int
deriving DecidableEq, Repr

/-- The `Piece.__init__` constructor. -/
def mkPiece (piecetype : Char) (position : Int) : Piece :=
  { piecetype := piecetype, color := piecetype.isLower, position := position }

/-- `Piece.move`. -/
def Piece.move (p : Piece) (to_ : Int) : Piece :=
  { p with position := to_ }

/-- `Piece.is_type`. -/
def Piece.is_type (p : Piece) (s : Str) : Bool :=
  s.contains p.piecetype

/-- The `Move` class; `moving_piece_FEN` is set by the constructor to the
upper-cased piece letter. -/
structure Move where
  frm : Int
  to_ : Int
  moving_piece : Piece
  moving_piece_FEN : Char
  capture : Option Char
  promotion : Option Char
  is_castle : Bool
  is_enpassant : Bool
deriving DecidableEq, Repr

/-- The `Move.__init__` constructor (all keyword arguments made explicit, in
the source's order `capture`, `promotion`, `is_castle`, `is_enpassant`). -/
def mkMove (frm to_ : Int) (moving_piece : Piece) (capture : Option Char)
    (promotion : Option Char) (is_castle : Bool) (is_enpassant : Bool) : Move :=
  { frm := frm, to_ := to_, moving_piece := moving_piece,
    moving_piece_FEN := moving_piece.piecetype.toUpper, capture := capture,
    promotion := promotion, is_castle := is_castle, is_enpassant := is_enpassant }

/-- The `BoardRep` position state, with the fields of `BoardRep.__init__`.
`piece_count` is the dict with the twelve `PIECES` keys, kept as an
association list in key-creation order. -/
structure BoardRep where
  side_to_move : Bool
  castling_rights : List Bool
  en_passant_square : Option Int
  half_move_count : Nat
  full_move_count : Nat
  piece_list : List Piece
  piece_count : List (Char × Int)
  square_list : List (Option Piece)
  in_check : Bool
  pseudolegal_moves : List Move
  move_sequence : List Move
  fen_sequence : List Str
deriving DecidableEq, Repr

/-- Reading `square_list[i]`: the occupant (or `None`).  CPython raises
`IndexError` for `|i| ≥ 64`, which no examined execution reaches; this total
model returns `none` there. -/
def sqGet (squares : List (Option Piece)) (i : Int) : Option Piece :=
  (pyIdx squares i).join

/-- `piece_count[c]` (the keys are always the twelve `PIECES` letters). -/
def pcGet (pc : List (Char × Int)) (c : Char) : Int :=
  match pc.find? (fun e => e.1 = c) with
  | some e => e.2
  | none => 0

/-- `piece_count[c] += d` (CPython raises `KeyError` for a missing key; the
letters used are always among the twelve keys). -/
def pcAdd (pc : List (Char × Int)) (c : Char) (d : Int) : List (Char × Int) :=
  pc.map (fun e => if e.1 = c then (e.1, e.2 + d) else e)

/-- `BoardRep.__init__`: the empty board. -/
def emptyBoard : BoardRep :=
  { side_to_move := false
    castling_rights := [true, true, true, true]
    en_passant_square := none
    half_move_count := 0
    full_move_count := 1
    piece_list := []
    piece_count := PIECES.map (fun c => (c, 0))
    square_list := List.replicate 64 none
    in_check := false
    pseudolegal_moves := []
    move_sequence := []
    fen_sequence := [] }

/-- One sliding ray of `generate_pseudolegal_moves`.  The source writes a
`while` loop advancing `offset` from `first` in unit steps while the guard
holds and the square is empty, then emits one capture if the guard still
holds and an enemy piece is hit.  `dir` is the square-index delta per step
(`±1`, `±8`, `±9`, `±7`), `guard k` is the board-edge test at step `k`
(`k = 1, 2, ...`).  The guard fails after at most 8 steps (files and ranks
are bounded by 8), so fuel 8 reproduces the loop exactly. -/
def slideRay (squares : List (Option Piece)) (on_move : Bool) (mp : Piece)
    (i : Int) (dir : Int) (guard : Int → Bool) : Nat → Int → List Move
  | 0, _ => []
  | fuel + 1, k =>
    if guard k then
      match sqGet squares (i + dir * k) with
      | none =>
        mkMove i (i + dir * k) mp none none false false ::
          slideRay squares on_move mp i dir guard fuel (k + 1)
      | some q =>
        if q.color ≠ on_move then
          [mkMove i (i + dir * k) mp (some q.piecetype) none false false]
        else []
    else []

/-- Step moves (king / knight) for one offset: capture an enemy, move to an
empty square, skip an own piece. -/
def stepMove (squares : List (Option Piece)) (on_move : Bool) (mp : Piece)
    (i off : Int) : List Move :=
  match sqGet squares (i + off) with
  | some q =>
    if q.color ≠ on_move then
      [mkMove i (i + off) mp (some q.piecetype) none false false]
    else []
  | none => [mkMove i (i + off) mp none none false false]

/-- Pawn promotion expansion: `for prom in proms` with
`proms = 'Qq'[clr] + 'Rr'[clr] + 'Bb'[clr] + knight`. -/
def promList (clr : Nat) : Str :=
  if clr = 0 then ['Q', 'R', 'B', 'N'] else ['q', 'r', 'b', 'n']

/-- The pawn block of `generate_pseudolegal_moves` for one pawn at square `i`
(with `r`, `f`, `clr`, en-passant square and mailbox as in the source). -/
def pawnMoves (squares : List (Option Piece)) (on_move : Bool) (ep : Option Int)
    (mp : Piece) (i r f : Int) (clr : Nat) : List Move :=
  let fwd : Int := 8 * (-1 : Int) ^ clr
  let capR : Int := 9 - 16 * (clr : Int)
  let capL : Int := 7 - 16 * (clr : Int)
  let promoRank : Int := 6 - 5 * (clr : Int)
  let dblRank : Int := 1 + 5 * (clr : Int)
  let fwdMoves :=
    if sqGet squares (i + fwd) = none then
      if r = promoRank then
        (promList clr).map (fun prom => mkMove i (i + fwd) mp none (some prom) false false)
      else
        mkMove i (i + fwd) mp none none false false ::
          (if r = dblRank ∧ sqGet squares (i + 2 * fwd) = none then
            [mkMove i (i + 2 * fwd) mp none none false false]
          else [])
    else []
  let capRMoves :=
    if f < 7 then
      match sqGet squares (i + capR) with
      | some q =>
        if q.color ≠ on_move then
          if r = promoRank then
            (promList clr).map
              (fun prom => mkMove i (i + capR) mp (some q.piecetype) (some prom) false false)
          else [mkMove i (i + capR) mp (some q.piecetype) none false false]
        else []
      | none => []
    else []
  let epRMoves :=
    if f < 7 ∧ ep = some (i + capR) then
      [mkMove i (i + capR) mp (some (if clr = 0 then 'p' else 'P')) none false true]
    else []
  let capLMoves :=
    if f > 0 then
      match sqGet squares (i + capL) with
      | some q =>
        if q.color ≠ on_move then
          if r = promoRank then
            (promList clr).map
              (fun prom => mkMove i (i + capL) mp (some q.piecetype) (some prom) false false)
          else [mkMove i (i + capL) mp (some q.piecetype) none false false]
        else []
      | none => []
    else []
  let epLMoves :=
    if f > 0 ∧ ep = some (i + capL) then
      [mkMove i (i + capL) mp (some (if clr = 0 then 'p' else 'P')) none false true]
    else []
  fwdMoves ++ capRMoves ++ epRMoves ++ capLMoves ++ epLMoves

/-- King step offsets after the source's rank/file set subtractions.  CPython
iterates a `set`, whose order is an implementation detail no observable
behaviour of the claims depends on; the literal listing order
`{7, 8, 9, -1, 1, -9, -8, -7}` is used here. -/
def kingOffsets (r f : Int) : List Int :=
  let base : List Int := [7, 8, 9, -1, 1, -9, -8, -7]
  let base :=
    if r = 0 then base.filter (fun o => o ∉ ([-9, -8, -7] : List Int))
    else if r = 7 then base.filter (fun o => o ∉ ([7, 8, 9] : List Int))
    else base
  if f = 0 then base.filter (fun o => o ∉ ([7, -1, -9] : List Int))
  else if f = 7 then base.filter (fun o => o ∉ ([9, 1, -7] : List Int))
  else base

/-- Knight offsets after the source's rank/file set subtractions; same
iteration-order remark as `kingOffsets`. -/
def knightOffsets (r f : Int) : List Int :=
  let base : List Int := [6, 15, 17, 10, -6, -15, -17, -10]
  let base :=
    if r = 0 then base.filter (fun o => o ∉ ([-6, -15, -17, -10] : List Int))
    else if r = 1 then base.filter (fun o => o ∉ ([-15, -17] : List Int))
    else if r = 7 then base.filter (fun o => o ∉ ([6, 15, 17, 10] : List Int))
    else if r = 6 then base.filter (fun o => o ∉ ([15, 17] : List Int))
    else base
  if f = 0 then base.filter (fun o => o ∉ ([-17, -10, 6, 15] : List Int))
  else if f = 1 then base.filter (fun o => o ∉ ([-10, 6] : List Int))
  else if f = 7 then base.filter (fun o => o ∉ ([17, 10, -6, -15] : List Int))
  else if f = 6 then base.filter (fun o => o ∉ ([10, -6] : List Int))
  else base

/-- `castling_rights[i]` (the list always has length 4). -/
def crGet (cr : List Bool) (i : Nat) : Bool :=
  cr.getD i false

/-- The moves contributed by one entry of `piece_list` in
`generate_pseudolegal_moves`. -/
def pieceMoves (b : BoardRep) (moving_piece : Piece) : List Move :=
  let on_move := b.side_to_move
  let squares := b.square_list
  let clr : Nat := if on_move then 1 else 0
  let pawn : Char := if on_move then 'p' else 'P'
  let rook : Char := if on_move then 'r' else 'R'
  let bishop : Char := if on_move then 'b' else 'B'
  let queen : Char := if on_move then 'q' else 'Q'
  let king : Char := if on_move then 'k' else 'K'
  let knight : Char := if on_move then 'n' else 'N'
  let i := moving_piece.position
  let r := i.fdiv 8
  let f := i.fmod 8
  let pawnPart :=
    if moving_piece.piecetype = pawn then
      pawnMoves squares on_move b.en_passant_square moving_piece i r f clr
    else []
  let rookPart :=
    if moving_piece.piecetype = rook ∨ moving_piece.piecetype = queen then
      slideRay squares on_move moving_piece i 1 (fun k => f + k < 8) 8 1 ++
      slideRay squares on_move moving_piece i (-1) (fun k => f - k ≥ 0) 8 1 ++
      slideRay squares on_move moving_piece i 8 (fun k => r + k < 8) 8 1 ++
      slideRay squares on_move moving_piece i (-8) (fun k => r - k ≥ 0) 8 1
    else []
  let bishopPart :=
    if moving_piece.piecetype = bishop ∨ moving_piece.piecetype = queen then
      slideRay squares on_move moving_piece i 9 (fun k => f + k < 8 ∧ r + k < 8) 8 1 ++
      slideRay squares on_move moving_piece i 7 (fun k => f - k ≥ 0 ∧ r + k < 8) 8 1 ++
      slideRay squares on_move moving_piece i (-7) (fun k => f + k < 8 ∧ r - k ≥ 0) 8 1 ++
      slideRay squares on_move moving_piece i (-9) (fun k => f - k ≥ 0 ∧ r - k ≥ 0) 8 1
    else []
  let kingPart :=
    if moving_piece.piecetype = king then
      ((kingOffsets r f).flatMap (fun off => stepMove squares on_move moving_piece i off)) ++
      (if crGet b.castling_rights (2 * clr) ∧
          sqGet squares (7 * 8 * (clr : Int) + 5) = none ∧
          sqGet squares (7 * 8 * (clr : Int) + 6) = none then
        [mkMove (7 * 8 * (clr : Int) + 4) (7 * 8 * (clr : Int) + 6) moving_piece
          none none true false]
      else []) ++
      (if crGet b.castling_rights (2 * clr + 1) ∧
          sqGet squares (7 * 8 * (clr : Int) + 1) = none ∧
          sqGet squares (7 * 8 * (clr : Int) + 2) = none ∧
          sqGet squares (7 * 8 * (clr : Int) + 3) = none then
        [mkMove (7 * 8 * (clr : Int) + 4) (7 * 8 * (clr : Int) + 2) moving_piece
          none none true false]
      else [])
    else []
  let knightPart :=
    if moving_piece.piecetype = knight then
      (knightOffsets r f).flatMap (fun off => stepMove squares on_move moving_piece i off)
    else []
  pawnPart ++ rookPart ++ bishopPart ++ kingPart ++ knightPart

/-- `BoardRep.generate_pseudolegal_moves`. -/
def generate_pseudolegal_moves (b : BoardRep) : List Move :=
  b.piece_list.flatMap (fun p => pieceMoves b p)

/-- Python `int(c)` for a single character: a digit or `ValueError` (`none`). -/
def charDigit (c : Char) : Option Nat :=
  if c.isDigit then some (c.toNat - '0'.toNat) else none

/-- The inner placement loop of `BoardRep.read_fen` over one rank string,
threading the file counter `f`. -/
def readRank (b : BoardRep) (r : Int) : Str → Int → Option BoardRep
  | [], _ => some b
  | c :: rest, f =>
    if PIECES.contains c then
      let pos := r * 8 + f
      let newpiece := mkPiece c pos
      readRank
        { b with square_list := pySet b.square_list pos (some newpiece),
                 piece_list := b.piece_list ++ [newpiece],
                 piece_count := pcAdd b.piece_count c 1 }
        r rest (f + 1)
    else
      match charDigit c with
      | some d => readRank b r rest (f + (d : Int))
      | none => none

/-- The outer placement loop of `BoardRep.read_fen`: ranks from `r = 7`
downwards (the source decrements `r` per rank string regardless of count). -/
def readRanks (b : BoardRep) : List Str → Int → Option BoardRep
  | [], _ => some b
  | rank :: rest, r =>
    match readRank b r rank 0 with
    | none => none
    | some b1 => readRanks b1 rest (r - 1)

/-- `BoardRep.read_fen`.  `none` models a CPython crash (missing fields,
unknown piece letter / non-digit in the placement, bad en-passant field or
bad integers). -/
def read_fen (fen : Str) : Option BoardRep :=
  let lines := pySplitWs fen
  match lines[0]? with
  | none => none
  | some placement =>
    match readRanks emptyBoard (pySplitOn '/' placement) 7 with
    | none => none
    | some b1 =>
      match lines[1]?, lines[2]?, lines[3]?, lines[4]?, lines[5]? with
      | some l1, some l2, some l3, some l4, some l5 =>
        match SQUARE_TO_NUM l3, parseNat l4, parseNat l5 with
        | some ep, some hm, some fm =>
          let b2 :=
            { b1 with side_to_move := l1 = ['b'],
                      castling_rights := ("KQkq".toList).map (fun opt => l2.contains opt),
                      en_passant_square := ep,
                      half_move_count := hm,
                      full_move_count := fm }
          some { b2 with pseudolegal_moves := generate_pseudolegal_moves b2,
                         fen_sequence := b2.fen_sequence ++ [fen] }
        | _, _, _ => none
      | _, _, _, _, _ => none

/-- One rank of `BoardRep.get_fen`: the inner loop over files `f = 0..7` with
the `number_of_empty` counter. -/
def emitRow (squares : List (Option Piece)) (r : Int) : Str :=
  let step := fun (st : Str × Nat) (f : Nat) =>
    match sqGet squares (r * 8 + (f : Int)) with
    | some piece =>
      ((st.1 ++ (if st.2 > 0 then natToStr st.2 else []) ++ [piece.piecetype]), 0)
    | none => (st.1, st.2 + 1)
  let res := (List.range 8).foldl step ([], 0)
  res.1 ++ (if res.2 > 0 then natToStr res.2 else [])

/-- `BoardRep.get_fen`. -/
def get_fen (b : BoardRep) : Str :=
  let placement :=
    (((List.range 8).map (fun (k : Nat) => emitRow b.square_list (7 - (k : Int)) ++ ['/'])).flatten).dropLast
  let res := placement ++ (if b.side_to_move then " b ".toList else " w ".toList)
  let castle :=
    (("KQkq".toList).enum).flatMap
      (fun e => if crGet b.castling_rights e.1 then [e.2] else [])
  let castle := if castle.length = 0 then ['-'] else castle
  let res := res ++ castle
  let res := res ++
    (match b.en_passant_square with
     | none => " -".toList
     | some i => ' ' :: (pyIdx NUM_TO_SQUARE i).getD [])
  res ++ [' '] ++ natToStr b.half_move_count ++ [' '] ++ natToStr b.full_move_count

/-- The capture block of `BoardRep.do_pseudolegal_move` (lines
`if mv.capture is not None: ...`): `side` is the mover, `squares1` the
mailbox with `mv.frm` already cleared.  Returns the updated mailbox, counts,
piece list and the captured piece; `none` is the CPython crash on
`None.piecetype`. -/
def dplm_capture (side : Bool) (pcount0 : List (Char × Int)) (plist0 : List Piece)
    (mv : Move) (squares1 : List (Option Piece)) :
    Option (List (Option Piece) × List (Char × Int) × List Piece × Option Piece) :=
  match mv.capture with
  | some _ =>
    let capSq : Int :=
      if mv.is_enpassant then mv.to_ - 8 * (-1 : Int) ^ (if side then 1 else 0)
      else mv.to_
    match sqGet squares1 capSq with
    | none => none
    | some captured_piece =>
      let squares2 := if mv.is_enpassant then pySet squares1 capSq none else squares1
      some (squares2, pcAdd pcount0 captured_piece.piecetype (-1),
            pyRemove plist0 captured_piece, some captured_piece)
  | none => some (squares1, pcount0, plist0, none)

/-- The castling-rook block of `BoardRep.do_pseudolegal_move`
(`if mv.is_castle: ...`): `squares3` already has the king on `mv.to`.
`none` is the CPython crash when the rook square is empty. -/
def dplm_castle (mv : Move) (squares3 : List (Option Piece)) (plist3 : List Piece) :
    Option (List (Option Piece) × List Piece) :=
  if mv.is_castle then
    if mv.to_ - mv.frm = 2 then
      match sqGet squares3 (mv.to_ + 1) with
      | none => none
      | some rook =>
        some (pySet (pySet squares3 (mv.to_ + 1) none) (mv.to_ - 1)
                (some (rook.move (mv.to_ - 1))),
              replaceFirst plist3 rook (rook.move (mv.to_ - 1)))
    else if mv.to_ - mv.frm = -2 then
      match sqGet squares3 (mv.to_ - 2) with
      | none => none
      | some rook =>
        some (pySet (pySet squares3 (mv.to_ - 2) none) (mv.to_ + 1)
                (some (rook.move (mv.to_ + 1))),
              replaceFirst plist3 rook (rook.move (mv.to_ + 1)))
    else some (squares3, plist3)
  else some (squares3, plist3)

/-- `BoardRep.do_pseudolegal_move`.  Returns the updated board together with
the `frm_piece` object (whose `position` has been mutated to `mv.to`) and the
captured piece, mirroring the source's `return frm_piece, captured_piece`.
`none` is a CPython crash (the `assert`, or attribute access on `None`). -/
def do_pseudolegal_move (b : BoardRep) (mv : Move) : Option (BoardRep × Piece × Option Piece) :=
  if ¬ (b.pseudolegal_moves.contains mv) then none
  else
    match sqGet b.square_list mv.frm with
    | none => none
    | some frm_piece =>
      match dplm_capture b.side_to_move b.piece_count b.piece_list mv
          (pySet b.square_list mv.frm none) with
      | none => none
      | some (squares2, pcount2, plist2, captured_piece) =>
        let moved_piece := frm_piece.move mv.to_
        match dplm_castle mv (pySet squares2 mv.to_ (some moved_piece))
            (replaceFirst plist2 frm_piece moved_piece) with
        | none => none
        | some (squares4, plist4) =>
          match mv.promotion with
          | some prom =>
            let promotedPiece := mkPiece prom mv.to_
            some ({ b with square_list := pySet squares4 mv.to_ (some promotedPiece),
                           piece_count := pcAdd (pcAdd pcount2 moved_piece.piecetype (-1)) prom 1,
                           piece_list := pyRemove plist4 moved_piece ++ [promotedPiece] },
                  moved_piece, captured_piece)
          | none =>
            some ({ b with square_list := squares4, piece_count := pcount2,
                           piece_list := plist4 },
                  moved_piece, captured_piece)

/-- `BoardRep.undo_pseudolegal_move`. -/
def undo_pseudolegal_move (b : BoardRep) (mv : Move) : Option BoardRep :=
  let afterUnpromote :
      Option (List (Option Piece) × List (Char × Int) × List Piece) :=
    match mv.promotion with
    | some _ =>
      match sqGet b.square_list mv.to_ with
      | none => none
      | some promotedPiece =>
        let oldPawn := mkPiece (if b.side_to_move then 'p' else 'P') mv.to_
        some (pySet b.square_list mv.to_ (some oldPawn),
              pcAdd (pcAdd b.piece_count promotedPiece.piecetype (-1)) oldPawn.piecetype 1,
              pyRemove b.piece_list promotedPiece ++ [oldPawn])
    | none => some (b.square_list, b.piece_count, b.piece_list)
  match afterUnpromote with
  | none => none
  | some (squares1, pcount1, plist1) =>
    let afterCastle : Option (List (Option Piece) × List Piece) :=
      if mv.is_castle then
        if mv.to_ - mv.frm = 2 then
          match sqGet squares1 (mv.to_ - 1) with
          | none => none
          | some rook =>
            some (pySet (pySet squares1 (mv.to_ - 1) none) (mv.to_ + 1)
                    (some (rook.move (mv.to_ + 1))),
                  replaceFirst plist1 rook (rook.move (mv.to_ + 1)))
        else if mv.to_ - mv.frm = -2 then
          match sqGet squares1 (mv.to_ + 1) with
          | none => none
          | some rook =>
            some (pySet (pySet squares1 (mv.to_ + 1) none) (mv.to_ - 2)
                    (some (rook.move (mv.to_ - 2))),
                  replaceFirst plist1 rook (rook.move (mv.to_ - 2)))
        else some (squares1, plist1)
      else some (squares1, plist1)
    match afterCastle with
    | none => none
    | some (squares2, plist2) =>
      match sqGet squares2 mv.to_ with
      | none => none
      | some to_piece =>
        let movedBack := to_piece.move mv.frm
        let squares3 := pySet (pySet squares2 mv.to_ none) mv.frm (some movedBack)
        let plist3 := replaceFirst plist2 to_piece movedBack
        match mv.capture with
        | some c =>
          let restored_piece :=
            if ¬ mv.is_enpassant then mkPiece c mv.to_
            else
              mkPiece (if b.side_to_move then 'P' else 'p')
                (mv.to_ - 8 * (-1 : Int) ^ (if b.side_to_move then 1 else 0))
          let squares4 :=
            if ¬ mv.is_enpassant then pySet squares3 mv.to_ (some restored_piece)
            else
              pySet squares3 (mv.to_ - 8 * (-1 : Int) ^ (if b.side_to_move then 1 else 0))
                (some restored_piece)
          some { b with square_list := squares4,
                        piece_count := pcAdd pcount1 restored_piece.piecetype 1,
                        piece_list := plist3 ++ [restored_piece] }
        | none =>
          some { b with square_list := squares3, piece_count := pcount1,
                        piece_list := plist3 }

/-- The value returned by `BoardRep.do_move`: Python's `False`, `True`, or the
freshly generated move list (when `update_movelist` is false). -/
inductive PyRet : Type where
  | pyFalse : PyRet
  | pyTrue : PyRet
  | pyList : List Move → PyRet
deriving DecidableEq, Repr

/-- Python truthiness of a `do_move` result (`False` and the empty list are
falsy). -/
def pyTruthy : PyRet → Bool
  | .pyFalse => false
  | .pyTrue => true
  | .pyList l => ¬ l.isEmpty

/-- The revert block of `BoardRep.do_move` (executed identically after a
failed castle-through-check or king-safety test): flip `side_to_move` back,
restore the saved en-passant square, reverse the pseudo-legal primitive and
splice the move out of the cached list, returning `False`. -/
def do_move_reject (b3 : BoardRep) (mv : Move) (old_enpassant : Option Int) :
    Option (PyRet × BoardRep) :=
  match undo_pseudolegal_move
      { b3 with side_to_move := ¬ b3.side_to_move,
                en_passant_square := old_enpassant } mv with
  | none => none
  | some b5 =>
    some (.pyFalse, { b5 with pseudolegal_moves := pyRemove b5.pseudolegal_moves mv })

/-- The castling-rights update of `BoardRep.do_move`
(`if any(self.castling_rights): ...`). -/
def do_move_rights (cr0 : List Bool) (mv : Move) (moved_piece : Piece)
    (captured_piece : Option Piece) : List Bool :=
  if cr0.any id then
    let cr1 :=
      if moved_piece.piecetype = 'K' then (cr0.set 0 false).set 1 false else cr0
    let cr2 :=
      if moved_piece.piecetype = 'k' then (cr1.set 2 false).set 3 false else cr1
    let cr3 :=
      if moved_piece.piecetype = 'R' then
        (if mv.frm = 7 then cr2.set 0 false
         else if mv.frm = 0 then cr2.set 1 false else cr2)
      else cr2
    let cr4 :=
      if moved_piece.piecetype = 'r' then
        (if mv.frm = 63 then cr3.set 2 false
         else if mv.frm = 56 then cr3.set 3 false else cr3)
      else cr3
    if mv.capture ≠ none then
      match captured_piece with
      | none => cr4
      | some cp =>
        let cr5 := if cp.is_type ['K'] then (cr4.set 0 false).set 1 false else cr4
        let cr6 := if cp.is_type ['k'] then (cr5.set 2 false).set 3 false else cr5
        if cp.is_type ['R', 'r'] then
          let cr7 := if mv.to_ = 7 then cr6.set 0 false else cr6
          let cr8 := if mv.to_ = 0 then cr7.set 1 false else cr7
          let cr9 := if mv.to_ = 63 then cr8.set 2 false else cr8
          if mv.to_ = 56 then cr9.set 3 false else cr9
        else cr6
    else cr4
  else cr0

/-- The tail of `BoardRep.do_move` after both legality checks pass: update
castling rights, full- and half-move counts, append the move and the
post-move FEN to the histories, and return `True` (replacing the cached
list) or the new move list, per `update_movelist`. -/
def do_move_finish (b3 : BoardRep) (mv : Move) (moved_piece : Piece)
    (captured_piece : Option Piece) (next_move_list : List Move)
    (update_movelist : Bool) : PyRet × BoardRep :=
  let cr := do_move_rights b3.castling_rights mv moved_piece captured_piece
  let fullm :=
    if ¬ b3.side_to_move then b3.full_move_count + 1 else b3.full_move_count
  let halfm :=
    if mv.capture ≠ none ∨ moved_piece.piecetype = 'P' ∨
        moved_piece.piecetype = 'p' ∨ mv.is_castle then 0
    else b3.half_move_count + 1
  let b4 :=
    { b3 with castling_rights := cr, full_move_count := fullm,
              half_move_count := halfm }
  let b5 := { b4 with move_sequence := b4.move_sequence ++ [mv] }
  let b6 := { b5 with fen_sequence := b5.fen_sequence ++ [get_fen b5] }
  if update_movelist then
    (.pyTrue, { b6 with pseudolegal_moves := next_move_list })
  else
    (.pyList next_move_list, b6)

/-- `BoardRep.do_move`. -/
def do_move (b : BoardRep) (mv : Move) (update_movelist : Bool) :
    Option (PyRet × BoardRep) :=
  if ¬ (b.pseudolegal_moves.contains mv) then some (.pyFalse, b)
  else
    match do_pseudolegal_move b mv with
    | none => none
    | some (b1, moved_piece, captured_piece) =>
      let old_enpassant := b1.en_passant_square
      let b3 :=
        { b1 with side_to_move := ¬ b1.side_to_move,
                  en_passant_square :=
            if moved_piece.piecetype = 'P' ∧ mv.to_ - mv.frm = 16 then some (mv.to_ - 8)
            else if moved_piece.piecetype = 'p' ∧ mv.to_ - mv.frm = -16 then some (mv.to_ + 8)
            else none }
      let next_move_list := generate_pseudolegal_moves b3
      let castleFail :=
        mv.is_castle ∧
          ((mv.to_ - mv.frm = 2 ∧ next_move_list.any (fun nxt => nxt.to_ = mv.to_ - 1)) ∨
           (mv.to_ - mv.frm = -2 ∧ next_move_list.any (fun nxt => nxt.to_ = mv.to_ + 1)))
      let kingCapFail :=
        next_move_list.any
          (fun nxt => nxt.capture = some (if b3.side_to_move then 'K' else 'k'))
      if castleFail ∨ (¬ castleFail ∧ kingCapFail) then
        do_move_reject b3 mv old_enpassant
      else
        some (do_move_finish b3 mv moved_piece captured_piece next_move_list
          update_movelist)

/-- `BoardRep.undo_move`.  With an empty history the source's `try/except`
returns leaving the board unchanged. -/
def undo_move (b : BoardRep) (regenerate_movelist : Bool) : Option BoardRep :=
  match b.move_sequence.getLast?, b.fen_sequence.getLast? with
  | none, _ => some b
  | some _, none => some { b with move_sequence := b.move_sequence.dropLast }
  | some last_move, some last_fen =>
    let b0 := { b with move_sequence := b.move_sequence.dropLast,
                       fen_sequence := b.fen_sequence.dropLast }
    let lines := pySplitWs last_fen
    match lines[2]?, lines[3]?, lines[4]?, lines[5]? with
    | some l2, some l3, some l4, some l5 =>
      match SQUARE_TO_NUM l3, parseNat l4, parseNat l5 with
      | some ep, some hm, some fm =>
        let b1 :=
          { b0 with castling_rights := ("KQkq".toList).map (fun opt => l2.contains opt),
                    en_passant_square := ep, half_move_count := hm,
                    full_move_count := fm }
        let b2 := { b1 with side_to_move := ¬ b1.side_to_move }
        match undo_pseudolegal_move b2 last_move with
        | none => none
        | some b3 =>
          if regenerate_movelist then
            some { b3 with pseudolegal_moves := generate_pseudolegal_moves b3 }
          else some b3
      | _, _, _ => none
    | _, _, _, _ => none

/-- `BoardRep.is_legal`. -/
def is_legal (b : BoardRep) (mv : Move) : Option (PyRet × BoardRep) :=
  match do_move b mv true with
  | none => none
  | some (res, b1) =>
    if pyTruthy res then
      match undo_move b1 true with
      | none => none
      | some b2 => some (res, b2)
    else some (res, b1)

/-- `Move.__str__`: `<from>-<to>` or `<from>x<to>` plus `=<PROMO>`. -/
def moveStr (mv : Move) : Str :=
  (pyIdx NUM_TO_SQUARE mv.frm).getD [] ++
  (if mv.capture ≠ none then ['x'] else ['-']) ++
  (pyIdx NUM_TO_SQUARE mv.to_).getD [] ++
  (match mv.promotion with
   | some p => ['=', p.toUpper]
   | none => [])

/-- The split key computed in `BoardRep.perft`:
`k = str(move); k = k[0:2] + k[3:5]`. -/
def splitKey (mv : Move) : Str :=
  let k := moveStr mv
  k.take 2 ++ (k.drop 3).take 2

/-- Python `split_dict[k] = v`: update in place or append (insertion order). -/
def dictSet (d : List (Str × Nat)) (k : Str) (v : Nat) : List (Str × Nat) :=
  if d.any (fun e => e.1 = k) then d.map (fun e => if e.1 = k then (k, v) else e)
  else d ++ [(k, v)]

/-- The `while` loop of `BoardRep.perft` (without `split`).  `rec1` is the
recursive call `self.perft(n-1)`.  `fuel` bounds the iteration count: each
pass either advances `i` or (on an illegal move) shortens the list, so
`length` iterations always suffice; `none` on fuel exhaustion corresponds to
executions the source cannot reach from states its API builds. -/
def perft_loop (rec1 : BoardRep → Option (Nat × BoardRep)) :
    Nat → BoardRep → Nat → Nat → Option (Nat × BoardRep)
  | 0, b, i, nodes =>
    if i < b.pseudolegal_moves.length then none else some (nodes, b)
  | fuel + 1, b, i, nodes =>
    if i < b.pseudolegal_moves.length then
      match b.pseudolegal_moves.get? i with
      | none => none
      | some move =>
        match do_move b move false with
        | none => none
        | some (temp, b1) =>
          if pyTruthy temp then
            match temp with
            | .pyList lst =>
              let old_moves := b1.pseudolegal_moves
              match rec1 { b1 with pseudolegal_moves := lst } with
              | none => none
              | some (add, b3) =>
                match undo_move b3 false with
                | none => none
                | some b4 =>
                  perft_loop rec1 fuel { b4 with pseudolegal_moves := old_moves }
                    (i + 1) (nodes + add)
            | _ => none
          else
            perft_loop rec1 fuel b1 i nodes
    else some (nodes, b)

/-- `BoardRep.perft` with the default `split=False`. -/
def perft (b : BoardRep) : Nat → Option (Nat × BoardRep)
  | 0 => some (1, b)
  | n + 1 =>
    perft_loop (fun b2 => perft b2 n) b.pseudolegal_moves.length b 0 0

/-- The `while` loop of `BoardRep.perft` with `split=True` at the top level
(recursive calls use `split=False`).  `addPrev` models the Python local
variable `add`: in an iteration whose move turns out illegal the key is
written with the *previous* value of `add`, and if no legal move has been
seen yet CPython raises `NameError` (modelled `none`). -/
def perft_split_loop (rec1 : BoardRep → Option (Nat × BoardRep)) :
    Nat → BoardRep → Nat → Nat → Option Nat → List (Str × Nat) →
      Option ((Nat × List (Str × Nat)) × BoardRep)
  | 0, b, i, nodes, _, split_dict =>
    if i < b.pseudolegal_moves.length then none else some ((nodes, split_dict), b)
  | fuel + 1, b, i, nodes, addPrev, split_dict =>
    if i < b.pseudolegal_moves.length then
      match b.pseudolegal_moves.get? i with
      | none => none
      | some move =>
        match do_move b move false with
        | none => none
        | some (temp, b1) =>
          if pyTruthy temp then
            match temp with
            | .pyList lst =>
              let old_moves := b1.pseudolegal_moves
              match rec1 { b1 with pseudolegal_moves := lst } with
              | none => none
              | some (add, b3) =>
                match undo_move b3 false with
                | none => none
                | some b4 =>
                  perft_split_loop rec1 fuel
                    { b4 with pseudolegal_moves := old_moves } (i + 1)
                    (nodes + add) (some add)
                    (dictSet split_dict (splitKey move) add)
            | _ => none
          else
            match addPrev with
            | none => none
            | some add =>
              perft_split_loop rec1 fuel b1 i nodes (some add)
                (dictSet split_dict (splitKey move) add)
    else some ((nodes, split_dict), b)

/-- `BoardRep.perft` with `split=True` and `n ≥ 1` (for `n = 0` the source
returns the bare integer 1 before any split handling; that case is modelled
with an empty mapping and is not used by any theorem below). -/
def perft_split (b : BoardRep) : Nat → Option ((Nat × List (Str × Nat)) × BoardRep)
  | 0 => some ((1, []), b)
  | n + 1 =>
    perft_split_loop (fun b2 => perft b2 n) b.pseudolegal_moves.length b 0 0 none []

/-! ## Concrete positions and moves used by the claim theorems -/

/-- The standard start position FEN. -/
def startFen : Str := "rnbqkbnr/pppppppp/8/8/8/8/PPPPPPPP/RNBQKBNR w KQkq - 0 1".toList

/-- The parsed start position. -/
def startB : BoardRep := (read_fen startFen).getD emptyBoard

/-- The double pawn push e2-e4 (squares 12 → 28), exactly as generated. -/
def mvE2E4 : Move := mkMove 12 28 (mkPiece 'P' 12) none none false false

/-- White to move, white king e1 in check from the rook e8, short castling
available and not crossing an attacked square:
`4r1k1/8/8/8/8/8/8/4K2R w K - 0 1`. -/
def castleB : BoardRep :=
  (read_fen "4r1k1/8/8/8/8/8/8/4K2R w K - 0 1".toList).getD emptyBoard

/-- White short castle e1-g1, exactly as generated. -/
def mvOO : Move := mkMove 4 6 (mkPiece 'K' 4) none none true false

/-- A promotion position for the perft split: `k7/6P1/8/8/8/8/8/K7 w - - 0 1`
(7 legal root moves, four of them promotions of the g7 pawn). -/
def promoB : BoardRep :=
  (read_fen "k7/6P1/8/8/8/8/8/K7 w - - 0 1".toList).getD emptyBoard

/-- The queen promotion g7-g8=Q (squares 54 → 62), exactly as generated. -/
def mvPromoQ : Move := mkMove 54 62 (mkPiece 'P' 54) none (some 'Q') false false

/-- `5r1k/8/8/8/8/8/5PP1/5K2 w - - 0 1`: white Kf1, Pf2, Pg2; black Rf8, Kh8.
After g2-g4 and an unmake, the board is back but the en-passant square has
been "restored" to g3 from the post-move FEN. -/
def epTrapB : BoardRep :=
  (read_fen "5r1k/8/8/8/8/8/5PP1/5K2 w - - 0 1".toList).getD emptyBoard

/-- The double pawn push g2-g4 (squares 14 → 30), exactly as generated. -/
def mvG2G4 : Move := mkMove 14 30 (mkPiece 'P' 14) none none false false

/-- The board reached from `epTrapB` by `do_move` of g2-g4 followed by
`undo_move`: mailbox as in `epTrapB`, but `en_passant_square = g3` and a
phantom en-passant capture f2xg3 in the regenerated cached move list. -/
def epTrapB2 : BoardRep :=
  ((do_move epTrapB mvG2G4 true).bind (fun r => undo_move r.2 true)).getD emptyBoard

/-- The phantom en-passant capture f2xg3 (squares 13 → 22) present in the
cached pseudo-legal list of `epTrapB2`, exactly as generated there. -/
def mvPhantomEp : Move := mkMove 13 22 (mkPiece 'P' 13) (some 'p') none false true

/-- A parseable FEN whose en-passant field points at an occupied square:
`k7/8/8/8/8/4n3/3Pp3/K7 w - e3 0 1` (black knight on e3, the en-passant
target).  The parser performs no consistency check. -/
def invB : BoardRep :=
  (read_fen "k7/8/8/8/8/4n3/3Pp3/K7 w - e3 0 1".toList).getD emptyBoard

/-- The generated en-passant capture d2xe3 (squares 11 → 20) of `invB`. -/
def mvInvEp : Move := mkMove 11 20 (mkPiece 'P' 11) (some 'p') none false true

/-- A position whose opponent has no pieces at all, so every reply list is
empty: `8/8/8/8/8/8/8/4K3 w - - 0 1`. -/
def loneKingB : BoardRep :=
  (read_fen "8/8/8/8/8/8/8/4K3 w - - 0 1".toList).getD emptyBoard

/-- The king move e1-e2 (squares 4 → 12), exactly as generated. -/
def mvKE1E2 : Move := mkMove 4 12 (mkPiece 'K' 4) none none false false

/-- Is a `do_move` outcome a success (Python `True`)? -/
def isPyTrue (r : Option (PyRet × BoardRep)) : Bool :=
  match r with
  | some (.pyTrue, _) => true
  | _ => false

/-- The result of making e2-e4 on the start position (used by the C7
witness). -/
def c7after : PyRet × BoardRep :=
  (do_move startB mvE2E4 true).getD (PyRet.pyFalse, emptyBoard)

/-! ## Well-formed FEN strings (for the round-trip claim)

`wellFormedFen` characterises the six-field FEN strings the emitter
`get_fen` can produce: single spaces, a placement of eight rank strings with
maximally-compressed digit runs, `w`/`b`, castling letters in `KQkq` order,
a square name or `-`, and canonical decimal clocks.  One extra restriction
mirrors a CPython crash: a white pawn placed on rank 8 makes the move
generation run by `read_fen` raise `IndexError` (`squares[i + 8]` out of
range), so such placements, which `get_fen` cannot produce from any position
reachable by the API, are excluded. -/

/-- The empty/piece cell sequence denoted by one FEN rank string. -/
def cells : Str → List (Option Char)
  | [] => []
  | c :: rest =>
    if PIECES.contains c then some c :: cells rest
    else
      match charDigit c with
      | some d => List.replicate d none ++ cells rest
      | none => cells rest

/-- Write a cell sequence into the mailbox from square `base` upwards,
skipping empty cells, as the placement loop of `read_fen` does. -/
def writeCells (l : List (Option Piece)) (base : Int) : List (Option Char) →
    List (Option Piece)
  | [] => l
  | some c :: cs => writeCells (pySet l base (some (mkPiece c base))) (base + 1) cs
  | none :: cs => writeCells l (base + 1) cs

/-- Write the ranks' cell sequences into rows `r, r-1, ...` (ranks 8 down to
1 when `r = 7`). -/
def writeRows (l : List (Option Piece)) : Int → List Str → List (Option Piece)
  | _, [] => l
  | r, t :: ts => writeRows (writeCells l (r * 8) (cells t)) (r - 1) ts

/-- The rank emitter of `get_fen` expressed over a cell sequence with the
running `number_of_empty` counter. -/
def emitCells : List (Option Char) → Nat → Str
  | [], cnt => if cnt > 0 then natToStr cnt else []
  | some c :: cs, cnt => (if cnt > 0 then natToStr cnt else []) ++ c :: emitCells cs 0
  | none :: cs, cnt => emitCells cs (cnt + 1)

/-- Well-formed FEN rank string with `budget` squares left to account for:
piece letters and digit runs 1..8, digits maximal (no two adjacent digits),
summing exactly to `budget`. -/
def wfRank : Str → Nat → Bool
  | [], budget => budget == 0
  | c :: rest, budget =>
    if PIECES.contains c then decide (0 < budget) && wfRank rest (budget - 1)
    else
      match charDigit c with
      | some d =>
        decide (1 ≤ d) && decide (d ≤ budget) &&
        (match rest with
         | [] => true
         | c2 :: _ => ! c2.isDigit) &&
        wfRank rest (budget - d)
      | none => false

/-- The sixteen castling fields `get_fen` can emit: `-` or a non-empty
subsequence of `KQkq` in order. -/
def wfCastleField (s : Str) : Bool :=
  ["-", "K", "Q", "k", "q", "KQ", "Kk", "Kq", "Qk", "Qq", "kq",
   "KQk", "KQq", "Kkq", "Qkq", "KQkq"].any (fun t => t.toList = s)

/-- The en-passant fields `get_fen` can emit. -/
def wfEpField (s : Str) : Bool :=
  s = ['-'] || NUM_TO_SQUARE.contains s

/-- Canonical decimal number fields (`str(n)` for the parsed value). -/
def wfNumField (s : Str) : Bool :=
  match parseNat s with
  | some n => natToStr n = s
  | none => false

/-- Well-formed six-field FEN string as produced by `get_fen` (see the
section comment). -/
def wellFormedFen (s : Str) : Bool :=
  match pySplitOn ' ' s with
  | [f1, f2, f3, f4, f5, f6] =>
    (match pySplitOn '/' f1 with
     | [r1, r2, r3, r4, r5, r6, r7, r8] =>
       wfRank r1 8 && wfRank r2 8 && wfRank r3 8 && wfRank r4 8 &&
       wfRank r5 8 && wfRank r6 8 && wfRank r7 8 && wfRank r8 8 &&
       ! r1.contains 'P'
     | _ => false) &&
    (f2 = ['w'] || f2 = ['b']) &&
    wfCastleField f3 && wfEpField f4 && wfNumField f5 && wfNumField f6
  | _ => false

/-- The rank emitter over piece-valued cells (what `emitRow` computes from
the mailbox); see `emitCells` for the character-valued counterpart. -/
def emitCellsP : List (Option Piece) → Nat → Str
  | [], cnt => if cnt > 0 then natToStr cnt else []
  | some p :: vs, cnt =>
    (if cnt > 0 then natToStr cnt else []) ++ p.piecetype :: emitCellsP vs 0
  | none :: vs, cnt => emitCellsP vs (cnt + 1)

/-- The eight occupants of row `r` of a mailbox. -/
def rowVals (sq : List (Option Piece)) (r : Int) : List (Option Piece) :=
  (List.range 8).map (fun (f : Nat) => sqGet sq (r * 8 + (f : Int)))

/-- Join strings with a separator character (inverse of `pySplitOn`). -/
def joinSep (sep : Char) : List Str → Str
  | [] => []
  | [x] => x
  | x :: xs => x ++ sep :: joinSep sep xs

/-! ## Claim theorems -/

set_option maxHeartbeats 10000000 in
/-- C1: refuted on the code.  `do_move` appends the *post-move* FEN to
`fen_sequence` and `undo_move` restores the scalar state from that popped
FEN, so make e2-e4 followed by unmake on the start position leaves
`en_passant_square = e3` (square 20) although it was `None` before the make:
the board is not restored. -/
theorem undo_restores_postmove_scalars_C1 :
    ((do_move startB mvE2E4 true).map
        (fun r => (r.1, (undo_move r.2 true).map (fun bb => bb.en_passant_square)))) =
      some (PyRet.pyTrue, some (some 20)) ∧
    startB.en_passant_square = none := by
  exact ⟨by rfl, by rfl⟩

set_option maxHeartbeats 10000000 in
/-- C3: refuted on the code.  `is_legal` of the legal move e2-e4 on the start
position returns `True` but leaves the board changed: the en-passant square
is `e3` (square 20, was `None`) and the regenerated cached pseudo-legal list
contains two phantom en-passant captures (d2xe3 and f2xe3), none before. -/
theorem is_legal_changes_board_C3 :
    ((is_legal startB mvE2E4).map
        (fun r => (r.1, r.2.en_passant_square,
          r.2.pseudolegal_moves.countP (fun m => m.is_enpassant)))) =
      some (PyRet.pyTrue, some 20, 2) ∧
    startB.en_passant_square = none ∧
    startB.pseudolegal_moves.countP (fun m => m.is_enpassant) = 0 := by
  exact ⟨by rfl, by rfl, by rfl⟩

set_option maxHeartbeats 10000000 in
/-- C4: refuted on the code.  In `castleB` the white king on e1 (square 4) is
in check (with the turn handed to black, exactly one black pseudo-legal move
captures the king on square 4), yet `do_move` accepts the short castle: only
the crossed square and a post-move king capture are tested, castling out of
check is not rejected. -/
theorem castle_out_of_check_accepted_C4 :
    (do_move castleB mvOO true).map Prod.fst = some PyRet.pyTrue ∧
    (generate_pseudolegal_moves { castleB with side_to_move := true }).countP
        (fun m => decide (m.to_ = 4) && decide (m.capture = some 'K')) = 1 ∧
    mvOO.is_castle = true ∧ mvOO.frm = 4 := by
  exact ⟨by rfl, by rfl, by rfl, by rfl⟩

set_option maxHeartbeats 10000000 in
/-- C5: refuted on the code.  The split key is `str(move)` with characters 2
and 5 removed, which drops the promotion suffix `=Q`: from `promoB` (seven
legal root moves, four promotions g7-g8) `perft(1, split=True)` returns a
4-entry mapping whose only promotion key is the 4-letter `g7g8`, not four
distinct 5-letter keys; the overwritten value 1 stands for the last
promotion tried. -/
theorem split_key_drops_promotion_C5 :
    ((perft_split promoB 1).map (fun r => r.1)) =
      some (7, [("g7g8".toList, 1), ("a1a2".toList, 1),
                ("a1b2".toList, 1), ("a1b1".toList, 1)]) ∧
    splitKey mvPromoQ = "g7g8".toList ∧
    (do_move promoB mvPromoQ true).map Prod.fst = some PyRet.pyTrue := by
  exact ⟨by rfl, by rfl, by rfl⟩

set_option maxHeartbeats 10000000 in
/-- C6: refuted on the code.  `epTrapB2` is reached from the parsed FEN
`5r1k/8/8/8/8/8/5PP1/5K2 w - - 0 1` by one make (g2-g4) and one unmake; its
mailbox holds the white pawn back on g2 (square 14) and the piece counts are
P = 2, p = 0.  The phantom en-passant capture f2xg3 from its corrupted
cached list fails the king-safety check, and the failed `do_move` returns
`False` — but the board is left changed: g2 now holds a *black* pawn and the
counts read P = 1, p = 1. -/
theorem failed_make_changes_board_C6 :
    ((do_move epTrapB mvG2G4 true).bind (fun r => undo_move r.2 true)) = some epTrapB2 ∧
    sqGet epTrapB2.square_list 14 = some (mkPiece 'P' 14) ∧
    pcGet epTrapB2.piece_count 'P' = 2 ∧ pcGet epTrapB2.piece_count 'p' = 0 ∧
    ((do_move epTrapB2 mvPhantomEp true).map (fun r =>
        (r.1, sqGet r.2.square_list 14, pcGet r.2.piece_count 'P',
         pcGet r.2.piece_count 'p'))) =
      some (PyRet.pyFalse, some (mkPiece 'p' 14), 1, 1) := by
  exact ⟨by rfl, by rfl, by rfl, by rfl, by rfl⟩

set_option maxHeartbeats 10000000 in
/-- C9: refuted on the code.  `invB` parses a FEN whose en-passant field
names the occupied square e3 (the parser checks nothing); its piece counts
initially agree with the mailbox for all twelve letters.  The generated
en-passant capture d2xe3 then overwrites the knight on e3 without touching
`piece_count`, and the successful make leaves `piece_count['n'] = 1` with no
black knight on any square. -/
theorem inventory_invariant_broken_C9 :
    ((do_move invB mvInvEp true).map (fun r =>
        (r.1, pcGet r.2.piece_count 'n',
         r.2.square_list.countP (fun sq => sq.elim false (fun p => p.piecetype == 'n'))))) =
      some (PyRet.pyTrue, 1, 0) ∧
    PIECES.all (fun c =>
      pcGet invB.piece_count c ==
        (invB.square_list.countP (fun sq => sq.elim false (fun p => p.piecetype == c)) : Int)) =
      true := by
  exact ⟨by rfl, by rfl⟩

set_option maxHeartbeats 10000000 in
/-- C2: refuted on the code.  On `loneKingB` every one of the five cached
king moves succeeds under `make_move`, but `perft(1)` does not return 5: a
successful make with `update_movelist=False` hands back the opponent's empty
move list, the loop treats it as an illegal move (without removing it or
advancing), re-applies the same move to the already-moved board and crashes
(`AttributeError` → `exit()`, modelled `none`).  The spec's `perft(1) =
number of legal moves` and the summation rule fail here. -/
theorem perft_crashes_on_empty_reply_C2 :
    perft loneKingB 1 = none ∧
    loneKingB.pseudolegal_moves.countP
        (fun m => isPyTrue (do_move loneKingB m true)) = 5 ∧
    loneKingB.pseudolegal_moves.length = 5 := by
  exact ⟨by rfl, by rfl, by rfl⟩

/-- Helper: a successful `do_pseudolegal_move` moves exactly the piece read
from `mv.frm` (its letter is preserved) and leaves every scalar field, the
cached move list and the histories of the board unchanged. -/
theorem do_pseudolegal_move_spec (b : BoardRep) (mv : Move) (b1 : BoardRep)
    (mp : Piece) (cp : Option Piece)
    (h : do_pseudolegal_move b mv = some (b1, mp, cp)) :
    (sqGet b.square_list mv.frm).map Piece.piecetype = some mp.piecetype ∧
    b1.side_to_move = b.side_to_move ∧
    b1.castling_rights = b.castling_rights ∧
    b1.en_passant_square = b.en_passant_square ∧
    b1.half_move_count = b.half_move_count ∧
    b1.full_move_count = b.full_move_count ∧
    b1.pseudolegal_moves = b.pseudolegal_moves ∧
    b1.move_sequence = b.move_sequence ∧
    b1.fen_sequence = b.fen_sequence := by
  simp only [do_pseudolegal_move] at h
  split at h
  · simp at h
  split at h
  · simp at h
  next fp hfp =>
    iterate 4 (all_goals try split at h)
    all_goals first
      | (simp only [Option.some.injEq, Prod.mk.injEq] at h
         obtain ⟨hb1, hmp, hcp⟩ := h
         subst hb1; subst hmp
         exact ⟨by rw [hfp]; rfl, rfl, rfl, rfl, rfl, rfl, rfl, rfl, rfl⟩)
      | simp at h

/-- Helper: the revert block of `do_move` always returns Python `False`. -/
theorem do_move_reject_ret (b3 : BoardRep) (mv : Move) (oe : Option Int)
    (r : PyRet) (bb : BoardRep) (h : do_move_reject b3 mv oe = some (r, bb)) :
    r = PyRet.pyFalse := by
  simp only [do_move_reject] at h
  split at h
  · simp at h
  · simp only [Option.some.injEq, Prod.mk.injEq] at h
    exact h.1.symm

/-- Helper: the half-move clock written by the success tail of `do_move`. -/
theorem do_move_finish_half (b3 : BoardRep) (mv : Move) (moved : Piece)
    (cap : Option Piece) (next : List Move) (upd : Bool) :
    (do_move_finish b3 mv moved cap next upd).2.half_move_count =
      if mv.capture ≠ none ∨ moved.piecetype = 'P' ∨ moved.piecetype = 'p' ∨
          mv.is_castle then 0
      else b3.half_move_count + 1 := by
  simp only [do_move_finish]
  split <;> rfl

/-- Helper: the success tail of `do_move` appends the move to the history. -/
theorem do_move_finish_moveseq (b3 : BoardRep) (mv : Move) (moved : Piece)
    (cap : Option Piece) (next : List Move) (upd : Bool) :
    (do_move_finish b3 mv moved cap next upd).2.move_sequence =
      b3.move_sequence ++ [mv] := by
  simp only [do_move_finish]
  split <;> rfl

/-- Helper: with `update_movelist=False` the success tail of `do_move`
returns the freshly generated move list itself. -/
theorem do_move_finish_ret_nolist (b3 : BoardRep) (mv : Move) (moved : Piece)
    (cap : Option Piece) (next : List Move) :
    (do_move_finish b3 mv moved cap next false).1 = PyRet.pyList next := by
  rfl

/-- C7: confirmed.  Whenever `do_move` does not report failure, the new
half-move clock is 0 if the move is a capture, a pawn move (the piece on the
origin square is a pawn) or a castle, and the old clock plus one
otherwise. -/
theorem halfmove_clock_C7 (b : BoardRep) (mv : Move) (upd : Bool) (ret : PyRet)
    (b' : BoardRep) (mp : Piece)
    (h : do_move b mv upd = some (ret, b'))
    (hret : ret ≠ PyRet.pyFalse)
    (hp : sqGet b.square_list mv.frm = some mp) :
    b'.half_move_count =
      if mv.capture ≠ none ∨ mp.piecetype = 'P' ∨ mp.piecetype = 'p' ∨ mv.is_castle
      then 0 else b.half_move_count + 1 := by
  simp only [do_move] at h
  split at h
  · simp only [Option.some.injEq, Prod.mk.injEq] at h
    exact absurd h.1.symm hret
  split at h
  · simp at h
  next b1 moved cap hdp =>
    obtain ⟨hpt, _, _, _, hhalf, _, _, _, _⟩ :=
      do_pseudolegal_move_spec b mv b1 moved cap hdp
    rw [hp] at hpt
    simp only [Option.map_some', Option.some.injEq] at hpt
    iterate 6 (all_goals try split at h)
    all_goals
      first
        | exact absurd (do_move_reject_ret _ _ _ _ _ h) hret
        | (simp only [Option.some.injEq] at h
           have hb' : (do_move_finish _ mv moved cap _ upd).2 = b' := congrArg Prod.snd h
           rw [← hb', do_move_finish_half]
           dsimp only
           rw [hhalf]
           simp only [← hpt])

set_option maxHeartbeats 10000000 in
/-- Witness for C7 at a concrete input: making e2-e4 (a pawn move) on the
start position resets the half-move clock. -/
theorem halfmove_clock_C7_witness :
    c7after.2.half_move_count =
      if mvE2E4.capture ≠ none ∨ (mkPiece 'P' 12).piecetype = 'P' ∨
          (mkPiece 'P' 12).piecetype = 'p' ∨ mvE2E4.is_castle
      then 0 else startB.half_move_count + 1 :=
  halfmove_clock_C7 startB mvE2E4 true c7after.1 c7after.2 (mkPiece 'P' 12)
    (by rfl) (by decide) (by rfl)

set_option maxHeartbeats 10000000 in
/-- C10: confirmed.  With `update_movelist=False` a non-failing `do_move`
returns the newly generated pseudo-legal move list of the resulting
position (never the boolean `True`), with the move applied and appended to
the history; on `loneKingB`, where the opponent has no pieces, the returned
value is the empty list, which is indistinguishable from failure under the
Python truthiness test. -/
theorem make_update_false_returns_movelist_C10 :
    (∀ (b : BoardRep) (mv : Move) (ret : PyRet) (b' : BoardRep),
        do_move b mv false = some (ret, b') → ret ≠ PyRet.pyFalse →
        ∃ l, ret = PyRet.pyList l ∧ b'.move_sequence = b.move_sequence ++ [mv]) ∧
    ((do_move loneKingB mvKE1E2 false).map (fun r => (r.1, r.2.move_sequence)) =
      some (PyRet.pyList [], [mvKE1E2])) ∧
    pyTruthy (PyRet.pyList []) = pyTruthy PyRet.pyFalse := by
  refine ⟨?_, by rfl, by rfl⟩
  intro b mv ret b' h hret
  simp only [do_move] at h
  split at h
  · simp only [Option.some.injEq, Prod.mk.injEq] at h
    exact absurd h.1.symm hret
  split at h
  · simp at h
  next b1 moved cap hdp =>
    obtain ⟨_, _, _, _, _, _, _, hmseq, _⟩ :=
      do_pseudolegal_move_spec b mv b1 moved cap hdp
    iterate 6 (all_goals try split at h)
    all_goals
      first
        | exact absurd (do_move_reject_ret _ _ _ _ _ h) hret
        | (simp only [Option.some.injEq] at h
           have hb' : (do_move_finish _ mv moved cap _ false).2 = b' := congrArg Prod.snd h
           have hr : (do_move_finish _ mv moved cap _ false).1 = ret := congrArg Prod.fst h
           exact ⟨_, by rw [← hr, do_move_finish_ret_nolist],
                  by rw [← hb', do_move_finish_moveseq]; dsimp only; rw [hmseq]⟩)

set_option maxHeartbeats 10000000 in
/-- Witness for C10's universally quantified part at a concrete input: the
non-failing `do_move` of e1-e2 on `loneKingB` with `update_movelist=False`
returns a (here empty) move list and appends the move to the history. -/
theorem make_update_false_returns_movelist_C10_witness :
    ∃ l, ((do_move loneKingB mvKE1E2 false).getD (PyRet.pyFalse, emptyBoard)).1 =
          PyRet.pyList l ∧
        ((do_move loneKingB mvKE1E2 false).getD (PyRet.pyFalse, emptyBoard)).2.move_sequence =
          loneKingB.move_sequence ++ [mvKE1E2] :=
  make_update_false_returns_movelist_C10.1 loneKingB mvKE1E2
    ((do_move loneKingB mvKE1E2 false).getD (PyRet.pyFalse, emptyBoard)).1
    ((do_move loneKingB mvKE1E2 false).getD (PyRet.pyFalse, emptyBoard)).2
    (by rfl) (by decide)

/-! ## Round-trip lemmas for the FEN claim -/


theorem pySplitOn_ne_nil (sep : Char) (s : Str) : pySplitOn sep s ≠ [] := by
  induction s with
  | nil => simp [pySplitOn]
  | cons c rest ih =>
    simp only [pySplitOn]
    split
    · simp
    · cases hr : pySplitOn sep rest with
      | nil => simp
      | cons p ps => simp

theorem joinSep_pySplitOn (sep : Char) (s : Str) :
    joinSep sep (pySplitOn sep s) = s := by
  induction s with
  | nil => simp [pySplitOn, joinSep]
  | cons c rest ih =>
    simp only [pySplitOn]
    split
    next hc =>
      cases hr : pySplitOn sep rest with
      | nil => exact absurd hr (pySplitOn_ne_nil sep rest)
      | cons p ps =>
        rw [hr] at ih
        simp [joinSep, hc, ih]
    next hc =>
      cases hr : pySplitOn sep rest with
      | nil => exact absurd hr (pySplitOn_ne_nil sep rest)
      | cons p ps =>
        rw [hr] at ih
        cases ps with
        | nil => simpa [joinSep] using ih
        | cons p2 ps2 =>
          simp only [joinSep] at ih ⊢
          simp [← ih]

theorem pySet_length {α : Type} (l : List α) (i : Int) (a : α) :
    (pySet l i a).length = l.length := by
  unfold pySet
  split
  · simp
  split
  · simp
  · rfl

theorem sqGet_nonneg (l : List (Option Piece)) (i : Int) (hi : 0 ≤ i) :
    sqGet l i = (l.get? i.toNat).join := by
  simp [sqGet, pyIdx, hi]

theorem pySet_nonneg {α : Type} (l : List α) (i : Int) (a : α) (hi : 0 ≤ i) :
    pySet l i a = l.set i.toNat a := by
  simp [pySet, hi]

theorem sqGet_pySet_eq (l : List (Option Piece)) (i : Int) (a : Option Piece)
    (hi : 0 ≤ i) (hlen : i.toNat < l.length) :
    sqGet (pySet l i a) i = a := by
  rw [pySet_nonneg l i a hi, sqGet_nonneg _ i hi]
  simp [List.get?_eq_getElem?, List.getElem?_set_self, hlen]

theorem sqGet_pySet_ne (l : List (Option Piece)) (i j : Int) (a : Option Piece)
    (hi : 0 ≤ i) (hj : 0 ≤ j) (hij : i ≠ j) :
    sqGet (pySet l i a) j = sqGet l j := by
  have hne : i.toNat ≠ j.toNat := by omega
  rw [pySet_nonneg l i a hi, sqGet_nonneg _ j hj, sqGet_nonneg _ j hj]
  simp [List.get?_eq_getElem?, List.getElem?_set_ne, hne]

theorem writeCells_length (cs : List (Option Char)) :
    ∀ (l : List (Option Piece)) (base : Int),
      (writeCells l base cs).length = l.length := by
  induction cs with
  | nil => intro l base; rfl
  | cons c cs ih =>
    intro l base
    cases c with
    | some c => simp [writeCells, ih, pySet_length]
    | none => simp [writeCells, ih]

theorem writeCells_get_lt (cs : List (Option Char)) :
    ∀ (l : List (Option Piece)) (base p : Int), 0 ≤ p → p < base →
      sqGet (writeCells l base cs) p = sqGet l p := by
  induction cs with
  | nil => intro l base p _ _; rfl
  | cons c cs ih =>
    intro l base p hp hlt
    cases c with
    | some c =>
      rw [writeCells, ih _ _ _ hp (by omega),
        sqGet_pySet_ne l base p _ (by omega) hp (by omega)]
    | none => rw [writeCells, ih _ _ _ hp (by omega)]

theorem writeCells_get_ge (cs : List (Option Char)) :
    ∀ (l : List (Option Piece)) (base p : Int), 0 ≤ base →
      base + cs.length ≤ p →
      sqGet (writeCells l base cs) p = sqGet l p := by
  induction cs with
  | nil => intro l base p _ _; rfl
  | cons c cs ih =>
    intro l base p hb hge
    simp only [List.length_cons] at hge
    cases c with
    | some c =>
      rw [writeCells, ih _ _ _ (by omega) (by omega),
        sqGet_pySet_ne l base p _ hb (by omega) (by omega)]
    | none => rw [writeCells, ih _ _ _ (by omega) (by omega)]

theorem writeCells_get_in (cs : List (Option Char)) :
    ∀ (l : List (Option Piece)) (base : Int) (k : Nat) (cell : Option Char),
      0 ≤ base → cs.get? k = some cell → base + cs.length ≤ (l.length : Int) →
      sqGet (writeCells l base cs) (base + k) =
        (match cell with
         | some c => some (mkPiece c (base + k))
         | none => sqGet l (base + k)) := by
  induction cs with
  | nil => intro l base k cell _ hk _; simp at hk
  | cons c cs ih =>
    intro l base k cell hb hk hlen
    simp only [List.length_cons] at hlen
    cases k with
    | zero =>
      simp only [List.get?] at hk
      injection hk with hk
      subst hk
      cases c with
      | some c =>
        rw [writeCells,
          writeCells_get_lt cs _ _ _ (by omega) (by omega)]
        have : sqGet (pySet l base (some (mkPiece c base))) base =
            some (mkPiece c base) :=
          sqGet_pySet_eq l base _ hb (by omega)
        simpa using this
      | none =>
        rw [writeCells, writeCells_get_lt cs _ _ _ (by omega) (by omega)]
    | succ k =>
      simp only [List.get?] at hk
      cases c with
      | some c =>
        rw [writeCells]
        have := ih (pySet l base (some (mkPiece c base))) (base + 1) k cell
          (by omega) hk (by rw [pySet_length]; omega)
        have harith : base + 1 + (k : Int) = base + ((k : Nat) + 1 : Nat) := by
          push_cast; omega
        rw [harith] at this
        rw [this]
        cases cell with
        | some c2 => rfl
        | none =>
          exact sqGet_pySet_ne l base _ _ hb (by positivity) (by omega)
      | none =>
        rw [writeCells]
        have := ih l (base + 1) k cell (by omega) hk (by omega)
        have harith : base + 1 + (k : Int) = base + ((k : Nat) + 1 : Nat) := by
          push_cast; omega
        rw [harith] at this
        rw [this]

theorem cells_length (t : Str) :
    ∀ budget : Nat, wfRank t budget = true → (cells t).length = budget := by
  induction t with
  | nil =>
    intro budget h
    simp only [wfRank, beq_iff_eq] at h
    simp [cells, h]
  | cons c rest ih =>
    intro budget h
    simp only [wfRank] at h
    split at h
    next hc =>
      simp only [Bool.and_eq_true, decide_eq_true_eq] at h
      simp only [cells, hc, if_true, List.length_cons, ih _ h.2]
      omega
    next hc =>
      cases hd : charDigit c with
      | none => rw [hd] at h; simp at h
      | some d =>
        rw [hd] at h
        simp only [Bool.and_eq_true, decide_eq_true_eq] at h
        simp only [cells, hd]
        rw [if_neg hc]
        simp only [List.length_append, List.length_replicate, ih _ h.2]
        omega

theorem writeCells_replicate (d : Nat) :
    ∀ (l : List (Option Piece)) (base : Int) (cs : List (Option Char)),
      writeCells l base (List.replicate d none ++ cs) =
        writeCells l (base + d) cs := by
  induction d with
  | zero => intro l base cs; simp [writeCells]
  | succ d ih =>
    intro l base cs
    simp only [List.replicate_succ, List.cons_append, writeCells, List.append_eq]
    rw [ih]
    congr 1
    push_cast
    omega

theorem readRank_spec (t : Str) :
    ∀ (budget : Nat) (b : BoardRep) (r f : Int), wfRank t budget = true →
      ∃ pl pc, readRank b r t f =
        some { b with square_list := writeCells b.square_list (r * 8 + f) (cells t),
                      piece_list := pl, piece_count := pc } := by
  induction t with
  | nil =>
    intro budget b r f _
    exact ⟨b.piece_list, b.piece_count, rfl⟩
  | cons c rest ih =>
    intro budget b r f h
    simp only [wfRank] at h
    split at h
    next hc =>
      simp only [Bool.and_eq_true, decide_eq_true_eq] at h
      obtain ⟨pl, pc, hrec⟩ := ih (budget - 1)
        { b with square_list := pySet b.square_list (r * 8 + f)
                   (some (mkPiece c (r * 8 + f))),
                 piece_list := b.piece_list ++ [mkPiece c (r * 8 + f)],
                 piece_count := pcAdd b.piece_count c 1 }
        r (f + 1) h.2
      refine ⟨pl, pc, ?_⟩
      rw [readRank, if_pos hc, hrec]
      simp only [cells, hc, if_true, writeCells]
      congr 2
      ring_nf
    next hc =>
      cases hd : charDigit c with
      | none => rw [hd] at h; simp at h
      | some d =>
        rw [hd] at h
        simp only [Bool.and_eq_true, decide_eq_true_eq] at h
        obtain ⟨pl, pc, hrec⟩ := ih (budget - d) b r (f + d) h.2
        refine ⟨pl, pc, ?_⟩
        rw [readRank, if_neg hc, hd]
        dsimp only
        rw [hrec]
        simp only [cells, hd]
        rw [if_neg hc, writeCells_replicate]
        congr 3
        ring_nf

theorem readRanks_spec (rs : List Str) :
    ∀ (r : Int) (b : BoardRep), (∀ t ∈ rs, wfRank t 8 = true) →
      ∃ pl pc, readRanks b rs r =
        some { b with square_list := writeRows b.square_list r rs,
                      piece_list := pl, piece_count := pc } := by
  induction rs with
  | nil =>
    intro r b _
    exact ⟨b.piece_list, b.piece_count, rfl⟩
  | cons t ts ih =>
    intro r b hwf
    obtain ⟨pl1, pc1, h1⟩ := readRank_spec t 8 b r 0 (hwf t (by simp))
    obtain ⟨pl2, pc2, h2⟩ := ih (r - 1)
      { b with square_list := writeCells b.square_list (r * 8 + 0) (cells t),
               piece_list := pl1, piece_count := pc1 }
      (fun t2 ht2 => hwf t2 (by simp [ht2]))
    refine ⟨pl2, pc2, ?_⟩
    rw [readRanks, h1]
    dsimp only
    rw [h2]
    simp only [writeRows, add_zero]

theorem writeRows_length (rs : List Str) :
    ∀ (l : List (Option Piece)) (r : Int),
      (writeRows l r rs).length = l.length := by
  induction rs with
  | nil => intro l r; rfl
  | cons t ts ih => intro l r; rw [writeRows, ih, writeCells_length]

theorem writeRows_get_high (rs : List Str) :
    ∀ (l : List (Option Piece)) (r p : Int),
      (rs.length : Int) ≤ r + 1 →
      (∀ t ∈ rs, (cells t).length ≤ 8) →
      (r + 1) * 8 ≤ p →
      sqGet (writeRows l r rs) p = sqGet l p := by
  induction rs with
  | nil => intro l r p _ _ _; rfl
  | cons t ts ih =>
    intro l r p hr hlen hp
    simp only [List.length_cons] at hr
    rw [writeRows]
    rw [ih _ (r - 1) p (by omega)
      (fun t2 ht2 => hlen t2 (by simp [ht2])) (by omega)]
    exact writeCells_get_ge (cells t) l (r * 8) p (by omega)
      (by have := hlen t (by simp); omega)

theorem lt_length_of_get?_eq_some {α : Type} {l : List α} {k : Nat} {a : α}
    (h : l.get? k = some a) : k < l.length := by
  by_contra hc
  push_neg at hc
  rw [List.get?_eq_none.mpr hc] at h
  simp at h

theorem mem_of_get?_eq_some {α : Type} : ∀ {l : List α} {k : Nat} {a : α},
    l.get? k = some a → a ∈ l := by
  intro l
  induction l with
  | nil => intro k a h; simp at h
  | cons x xs ih =>
    intro k a h
    cases k with
    | zero => simp only [List.get?] at h; injection h with h; simp [h]
    | succ k => simp only [List.get?] at h; exact List.mem_cons_of_mem x (ih h)

theorem writeRows_get_row (rs : List Str) :
    ∀ (l : List (Option Piece)) (r : Int) (j k : Nat) (t : Str) (cell : Option Char),
      (rs.length : Int) ≤ r + 1 → r ≤ 7 →
      (∀ t2 ∈ rs, (cells t2).length ≤ 8) →
      rs.get? j = some t →
      (cells t).get? k = some cell →
      (l.length : Int) = 64 →
      sqGet (writeRows l r rs) ((r - j) * 8 + k) =
        (match cell with
         | some c => some (mkPiece c ((r - j) * 8 + k))
         | none => sqGet l ((r - j) * 8 + k)) := by
  induction rs with
  | nil => intro l r j k t cell _ _ _ hj; simp at hj
  | cons t0 ts ih =>
    intro l r j k t cell hr hr7 hlen hj hk hl
    simp only [List.length_cons] at hr
    have hkb : k < (cells t).length := lt_length_of_get?_eq_some hk
    have hct : (cells t).length ≤ 8 := hlen t (mem_of_get?_eq_some hj)
    cases j with
    | zero =>
      simp only [List.get?] at hj
      injection hj with hj
      subst hj
      rw [writeRows,
        writeRows_get_high ts _ (r - 1) _ (by omega)
          (fun t2 ht2 => hlen t2 (by simp [ht2])) (by omega)]
      have := writeCells_get_in (cells t0) l (r * 8) k cell (by omega) hk
        (by rw [hl]; omega)
      have harith : (r - (0 : Nat)) * 8 + (k : Int) = r * 8 + k := by push_cast; omega
      rw [harith]
      rw [this]
    | succ j =>
      rw [writeRows]
      have hrec := ih (writeCells l (r * 8) (cells t0)) (r - 1) j k t cell
        (by omega) (by omega) (fun t2 ht2 => hlen t2 (by simp [ht2]))
        (by simpa using hj) hk (by rw [writeCells_length]; exact hl)
      have hjlen : j < ts.length := by
        have : ts.get? j = some t := by simpa using hj
        exact lt_length_of_get?_eq_some this
      have harith : (r - 1 - (j : Int)) * 8 + k = (r - ((j : Nat) + 1 : Nat)) * 8 + k := by
        push_cast; omega
      rw [harith] at hrec
      rw [hrec]
      cases cell with
      | some c => rfl
      | none =>
        exact writeCells_get_lt (cells t0) l (r * 8) _ (by push_cast; omega)
          (by push_cast; omega)

theorem sqGet_replicate_none (p : Int) :
    sqGet (List.replicate 64 (none : Option Piece)) p = none := by
  simp only [sqGet, pyIdx]
  split
  · cases h : (List.replicate 64 (none : Option Piece)).get? p.toNat with
    | none => rfl
    | some v =>
      have := mem_of_get?_eq_some h
      simp only [List.mem_replicate] at this
      rw [this.2]
      rfl
  split
  · cases h : (List.replicate 64 (none : Option Piece)).get? _ with
    | none => rfl
    | some v =>
      have := mem_of_get?_eq_some h
      simp only [List.mem_replicate] at this
      rw [this.2]
      rfl
  · rfl

theorem charDigit_natToStr (c : Char) (d : Nat) (h : charDigit c = some d)
    (h1 : 1 ≤ d) : natToStr d = [c] := by
  simp only [charDigit] at h
  split at h
  next hdig =>
    simp only [Char.isDigit, Bool.and_eq_true, decide_eq_true_eq] at hdig
    obtain ⟨ha, hb⟩ := hdig
    have ha' : 48 ≤ c.toNat := ha
    have hb' : c.toNat ≤ 57 := hb
    injection h with h
    have h0 : ('0').toNat = 48 := rfl
    rw [h0] at h
    have hc : c = Char.ofNat (48 + d) := by
      rw [← Char.ofNat_toNat c]
      congr 1
      omega
    subst hc
    have h9 : d ≤ 9 := by omega
    interval_cases d <;> rfl
  next => exact absurd h (by simp)

theorem emitCells_replicate (d : Nat) :
    ∀ (cs : List (Option Char)) (cnt : Nat),
      emitCells (List.replicate d none ++ cs) cnt = emitCells cs (cnt + d) := by
  induction d with
  | zero => intro cs cnt; rfl
  | succ d ih =>
    intro cs cnt
    simp only [List.replicate_succ, List.cons_append, emitCells, List.append_eq]
    rw [ih]
    congr 1
    omega

theorem emitCells_cells (t : Str) :
    ∀ budget : Nat, wfRank t budget = true → emitCells (cells t) 0 = t := by
  induction t with
  | nil => intro budget h; rfl
  | cons c rest ih =>
    intro budget h
    simp only [wfRank] at h
    split at h
    next hc =>
      simp only [Bool.and_eq_true, decide_eq_true_eq] at h
      simp only [cells, hc, if_true, emitCells]
      simp [ih _ h.2]
    next hc =>
      cases hd : charDigit c with
      | none => rw [hd] at h; simp at h
      | some d =>
        rw [hd] at h
        simp only [Bool.and_eq_true, decide_eq_true_eq] at h
        obtain ⟨⟨⟨h1, hbud⟩, hmax⟩, hrest⟩ := h
        simp only [cells, hd]
        rw [if_neg hc, emitCells_replicate]
        simp only [Nat.zero_add]
        cases rest with
        | nil =>
          simp only [cells, emitCells]
          rw [if_pos (by omega), charDigit_natToStr c d hd h1]
        | cons c2 rest2 =>
          have hnd : c2.isDigit = false := by simpa using hmax
          have hc2 : PIECES.contains c2 = true := by
            by_contra hcc
            simp only [Bool.not_eq_true] at hcc
            simp [wfRank, hcc, charDigit, hnd] at hrest
            simp at hcc
            exact hcc hrest.1
          have ihr := ih (budget - d) hrest
          simp only [cells, hc2, if_true, emitCells, Nat.lt_irrefl,
            if_neg (by omega : ¬ (0 : Nat) > 0), List.nil_append] at ihr
          injection ihr with _ ihr
          simp only [cells, hc2, if_true, emitCells]
          rw [if_pos (by omega), ihr, charDigit_natToStr c d hd h1]
          rfl

theorem emitCellsP_eq_emitCells (vs : List (Option Piece)) (cs : List (Option Char))
    (h : List.Forall₂ (fun v c => Option.map Piece.piecetype v = c) vs cs) :
    ∀ cnt, emitCellsP vs cnt = emitCells cs cnt := by
  induction h with
  | nil => intro cnt; rfl
  | @cons v c vs2 cs2 hrel _ ih =>
    intro cnt
    cases v with
    | none =>
      simp only [Option.map_none'] at hrel
      subst hrel
      simp only [emitCellsP, emitCells, ih]
    | some p =>
      simp only [Option.map_some'] at hrel
      subst hrel
      simp only [emitCellsP, emitCells, ih]

theorem emitRow_eq_emitCellsP (squares : List (Option Piece)) (r : Int) :
    emitRow squares r = emitCellsP (rowVals squares r) 0 := by
  suffices key : ∀ (fs : List Nat) (acc : Str) (cnt : Nat),
      (fs.foldl (fun (st : Str × Nat) (f : Nat) =>
          match sqGet squares (r * 8 + (f : Int)) with
          | some piece =>
            ((st.1 ++ (if st.2 > 0 then natToStr st.2 else []) ++ [piece.piecetype]), 0)
          | none => (st.1, st.2 + 1)) (acc, cnt)).1 ++
        (if (fs.foldl (fun (st : Str × Nat) (f : Nat) =>
          match sqGet squares (r * 8 + (f : Int)) with
          | some piece =>
            ((st.1 ++ (if st.2 > 0 then natToStr st.2 else []) ++ [piece.piecetype]), 0)
          | none => (st.1, st.2 + 1)) (acc, cnt)).2 > 0 then
          natToStr ((fs.foldl (fun (st : Str × Nat) (f : Nat) =>
          match sqGet squares (r * 8 + (f : Int)) with
          | some piece =>
            ((st.1 ++ (if st.2 > 0 then natToStr st.2 else []) ++ [piece.piecetype]), 0)
          | none => (st.1, st.2 + 1)) (acc, cnt)).2) else []) =
      acc ++ emitCellsP (fs.map (fun (f : Nat) => sqGet squares (r * 8 + (f : Int)))) cnt by
    have h8 := key (List.range 8) [] 0
    simpa [emitRow, rowVals] using h8
  intro fs
  induction fs with
  | nil => intro acc cnt; rfl
  | cons f fs ih =>
    intro acc cnt
    simp only [List.foldl_cons, List.map_cons]
    cases hf : sqGet squares (r * 8 + (f : Int)) with
    | some p =>
      simp only [hf]
      rw [ih]
      simp [emitCellsP, List.append_assoc]
    | none =>
      simp only [hf]
      rw [ih]
      simp [emitCellsP]

theorem rowVals_writeRows_forall2 (rs : List Str) (j : Nat) (t : Str)
    (hj : rs.get? j = some t)
    (hlen8 : ∀ t2 ∈ rs, (cells t2).length = 8)
    (hrs : rs.length ≤ 8) :
    List.Forall₂ (fun v c => Option.map Piece.piecetype v = c)
      (rowVals (writeRows (List.replicate 64 none) 7 rs) (7 - (j : Int)))
      (cells t) := by
  rw [List.forall₂_iff_get]
  constructor
  · simp [rowVals, hlen8 t (mem_of_get?_eq_some hj)]
  · intro i h1 h2
    have hval : (rowVals (writeRows (List.replicate 64 none) 7 rs) (7 - (j : Int))).get ⟨i, h1⟩ =
        sqGet (writeRows (List.replicate 64 none) 7 rs) ((7 - (j : Int)) * 8 + (i : Int)) := by
      simp [rowVals, List.get_eq_getElem, List.getElem_map, List.getElem_range]
    have hcell : (cells t).get? i = some ((cells t).get ⟨i, h2⟩) := List.get?_eq_get h2
    have hrow := writeRows_get_row rs (List.replicate 64 none) 7 j i t
      ((cells t).get ⟨i, h2⟩) (by push_cast; omega) (by omega)
      (fun t2 ht2 => le_of_eq (hlen8 t2 ht2)) hj hcell (by simp)
    rw [hval, hrow]
    cases hc : (cells t).get ⟨i, h2⟩ with
    | some c => rfl
    | none => rw [sqGet_replicate_none]; rfl

theorem emitRow_writeRows (rs : List Str) (j : Nat) (t : Str)
    (hj : rs.get? j = some t)
    (hwf : ∀ t2 ∈ rs, wfRank t2 8 = true)
    (hrs : rs.length ≤ 8) :
    emitRow (writeRows (List.replicate 64 none) 7 rs) (7 - (j : Int)) = t := by
  rw [emitRow_eq_emitCellsP,
    emitCellsP_eq_emitCells _ _ (rowVals_writeRows_forall2 rs j t hj
      (fun t2 ht2 => cells_length t2 8 (hwf t2 ht2)) hrs) 0]
  exact emitCells_cells t 8 (hwf t (mem_of_get?_eq_some hj))

theorem flatten_dropLast_joinSep (sep : Char) :
    ∀ (xs : List Str), xs ≠ [] →
      ((xs.map (fun x => x ++ [sep])).flatten).dropLast = joinSep sep xs := by
  intro xs
  induction xs with
  | nil => intro h; exact absurd rfl h
  | cons x xs ih =>
    intro _
    cases xs with
    | nil => simp [joinSep, List.dropLast_concat]
    | cons y ys =>
      rw [List.map_cons, List.flatten_cons,
        List.dropLast_append_of_ne_nil _ (by simp), ih (by simp)]
      simp [joinSep, List.append_assoc]

theorem strIndexOf_spec : ∀ (ts : List Str) (s : Str) (k i : Nat),
    strIndexOf ts s k = some i → k ≤ i ∧ ts.get? (i - k) = some s := by
  intro ts
  induction ts with
  | nil => intro s k i h; simp [strIndexOf] at h
  | cons t ts ih =>
    intro s k i h
    rw [strIndexOf] at h
    split at h
    next heq =>
      injection h with h
      subst h
      exact ⟨le_refl k, by simp [heq]⟩
    next heq =>
      obtain ⟨hk, hg⟩ := ih s (k + 1) i h
      refine ⟨by omega, ?_⟩
      have hik : i - k = (i - (k + 1)) + 1 := by omega
      rw [hik]
      simpa using hg

theorem strIndexOf_isSome : ∀ (ts : List Str) (s : Str) (k : Nat), s ∈ ts →
    ∃ i, strIndexOf ts s k = some i := by
  intro ts
  induction ts with
  | nil => intro s k h; simp at h
  | cons t ts ih =>
    intro s k h
    by_cases heq : t = s
    · exact ⟨k, by rw [strIndexOf, if_pos heq]⟩
    · have hs : s ∈ ts := by
        cases h with
        | head => exact absurd rfl heq
        | tail _ h => exact h
      obtain ⟨i, hi⟩ := ih s (k + 1) hs
      exact ⟨i, by rw [strIndexOf, if_neg heq, hi]⟩

theorem ep_roundtrip (f4 : Str) (h : wfEpField f4 = true) :
    ∃ ep : Option Int, SQUARE_TO_NUM f4 = some ep ∧
      (match ep with
       | none => " -".toList
       | some i => ' ' :: (pyIdx NUM_TO_SQUARE i).getD []) = ' ' :: f4 := by
  by_cases hdash : f4 = ['-']
  · refine ⟨none, by simp [SQUARE_TO_NUM, hdash], ?_⟩
    rw [hdash]
    rfl
  · have hmem : f4 ∈ NUM_TO_SQUARE := by
      simp only [wfEpField, Bool.or_eq_true, decide_eq_true_eq] at h
      cases h with
      | inl h => exact absurd h hdash
      | inr h => simpa using h
    obtain ⟨i, hi⟩ := strIndexOf_isSome NUM_TO_SQUARE f4 0 hmem
    obtain ⟨_, hg⟩ := strIndexOf_spec NUM_TO_SQUARE f4 0 i hi
    rw [Nat.sub_zero] at hg
    refine ⟨some (i : Int), ?_, ?_⟩
    · rw [SQUARE_TO_NUM, if_neg hdash, hi]
    · have : pyIdx NUM_TO_SQUARE (i : Int) = some f4 := by
        rw [pyIdx, if_pos (by positivity)]
        simpa using hg
      dsimp only
      rw [this]
      rfl

theorem castle_roundtrip (f3 : Str) (h : wfCastleField f3 = true) :
    (if ((("KQkq".toList).enum).flatMap
        (fun e => if crGet (("KQkq".toList).map (fun opt => f3.contains opt)) e.1
          then [e.2] else [])).length = 0
     then ['-']
     else (("KQkq".toList).enum).flatMap
        (fun e => if crGet (("KQkq".toList).map (fun opt => f3.contains opt)) e.1
          then [e.2] else [])) = f3 := by
  simp only [wfCastleField, List.any_cons, List.any_nil, Bool.or_eq_true,
    decide_eq_true_eq] at h
  rcases h with h | h | h | h | h | h | h | h | h | h | h | h | h | h | h | h | h
  all_goals first
  | (rw [← h]; rfl)
  | exact absurd h (by simp)

theorem wfCastleField_ne_nil (f3 : Str) (h : wfCastleField f3 = true) :
    f3 ≠ [] := by
  simp only [wfCastleField, List.any_cons, List.any_nil, Bool.or_eq_true,
    decide_eq_true_eq] at h
  rcases h with h | h | h | h | h | h | h | h | h | h | h | h | h | h | h | h | h
  all_goals first
  | (rw [← h]; simp)
  | exact absurd h (by simp)

theorem wfEpField_ne_nil (f4 : Str) (h : wfEpField f4 = true) :
    f4 ≠ [] := by
  simp only [wfEpField, Bool.or_eq_true, decide_eq_true_eq] at h
  cases h with
  | inl h => rw [h]; simp
  | inr h =>
    intro he
    rw [he] at h
    have hmem : ([] : Str) ∈ NUM_TO_SQUARE := by simpa using h
    exact absurd hmem (by decide)

theorem parseNat_ne_nil (s : Str) (n : Nat) (h : parseNat s = some n) :
    s ≠ [] := by
  intro he
  rw [he] at h
  simp [parseNat] at h

set_option maxHeartbeats 4000000 in
/-- C8: confirmed.  For every well-formed six-field FEN string the emitter
could produce (`wellFormedFen`: eight maximally-compressed rank strings,
`w`/`b`, castling letters in `KQkq` order or `-`, a square name or `-`,
canonical decimal clocks; white pawns on rank 8 excluded since `read_fen`
would crash generating moves), parsing with `read_fen` and re-emitting with
`get_fen` returns the identical string. -/
theorem fen_roundtrip_C8 (s : Str) (h : wellFormedFen s = true) :
    (read_fen s).map get_fen = some s := by
  simp only [wellFormedFen] at h
  split at h
  next f1 f2 f3 f4 f5 f6 hsp =>
    simp only [Bool.and_eq_true] at h
    obtain ⟨⟨⟨⟨⟨hm, hside⟩, hcas⟩, hep⟩, hn5⟩, hn6⟩ := h
    split at hm
    next r1 r2 r3 r4 r5 r6 r7 r8 hpl =>
      simp only [Bool.and_eq_true] at hm
      obtain ⟨⟨⟨⟨⟨⟨⟨⟨hw1, hw2⟩, hw3⟩, hw4⟩, hw5⟩, hw6⟩, hw7⟩, hw8⟩, hP⟩ := hm
      have hwfAll : ∀ t2 ∈ [r1, r2, r3, r4, r5, r6, r7, r8], wfRank t2 8 = true := by
        intro t2 ht2
        simp only [List.mem_cons, List.not_mem_nil, or_false] at ht2
        rcases ht2 with rfl | rfl | rfl | rfl | rfl | rfl | rfl | rfl <;> assumption
      have hsd : f2 = ['w'] ∨ f2 = ['b'] := by simpa using hside
      obtain ⟨n5, heq5, hns5⟩ : ∃ n, parseNat f5 = some n ∧ natToStr n = f5 := by
        simp only [wfNumField] at hn5
        split at hn5
        next n heq => exact ⟨n, heq, by simpa using hn5⟩
        next => exact absurd hn5 (by simp)
      obtain ⟨n6, heq6, hns6⟩ : ∃ n, parseNat f6 = some n ∧ natToStr n = f6 := by
        simp only [wfNumField] at hn6
        split at hn6
        next n heq => exact ⟨n, heq, by simpa using hn6⟩
        next => exact absurd hn6 (by simp)
      have hf1 : f1 ≠ [] := by
        intro he
        rw [he] at hpl
        simp [pySplitOn] at hpl
      have hf2 : f2 ≠ [] := by
        rcases hsd with rfl | rfl <;> simp
      have hf3 : f3 ≠ [] := wfCastleField_ne_nil f3 hcas
      have hf4 : f4 ≠ [] := wfEpField_ne_nil f4 hep
      have hf5 : f5 ≠ [] := parseNat_ne_nil f5 n5 heq5
      have hf6 : f6 ≠ [] := parseNat_ne_nil f6 n6 heq6
      have hws : pySplitWs s = [f1, f2, f3, f4, f5, f6] := by
        rw [pySplitWs, hsp]
        simp [List.filter_cons, List.isEmpty_eq_false, hf1, hf2, hf3, hf4, hf5, hf6]
      obtain ⟨ep, hepn, hepEmit⟩ := ep_roundtrip f4 hep
      obtain ⟨pl, pc, hrr⟩ := readRanks_spec [r1, r2, r3, r4, r5, r6, r7, r8] 7
        emptyBoard hwfAll
      have hjoin : joinSep ' ' (pySplitOn ' ' s) = s := joinSep_pySplitOn ' ' s
      rw [hsp] at hjoin
      have hjoin1 : joinSep '/' (pySplitOn '/' f1) = f1 := joinSep_pySplitOn '/' f1
      rw [hpl] at hjoin1
      rw [read_fen, hws]
      simp only [List.getElem?_cons_zero, List.getElem?_cons_succ]
      rw [hpl, hrr]
      dsimp only
      rw [hepn, heq5, heq6]
      dsimp only
      rw [Option.map_some']
      congr 1
      rcases hsd with rfl | rfl <;>
      · rw [← hjoin, ← hjoin1]
        have hsq : emptyBoard.square_list = List.replicate 64 (none : Option Piece) := rfl
        have h0 : emitRow (writeRows (List.replicate 64 (none : Option Piece)) 7
            [r1, r2, r3, r4, r5, r6, r7, r8]) (7 - ((0 : Nat) : Int)) = r1 :=
          emitRow_writeRows [r1, r2, r3, r4, r5, r6, r7, r8] 0 r1 rfl hwfAll (by simp)
        have h1 : emitRow (writeRows (List.replicate 64 (none : Option Piece)) 7
            [r1, r2, r3, r4, r5, r6, r7, r8]) (7 - ((1 : Nat) : Int)) = r2 :=
          emitRow_writeRows [r1, r2, r3, r4, r5, r6, r7, r8] 1 r2 rfl hwfAll (by simp)
        have h2 : emitRow (writeRows (List.replicate 64 (none : Option Piece)) 7
            [r1, r2, r3, r4, r5, r6, r7, r8]) (7 - ((2 : Nat) : Int)) = r3 :=
          emitRow_writeRows [r1, r2, r3, r4, r5, r6, r7, r8] 2 r3 rfl hwfAll (by simp)
        have h3 : emitRow (writeRows (List.replicate 64 (none : Option Piece)) 7
            [r1, r2, r3, r4, r5, r6, r7, r8]) (7 - ((3 : Nat) : Int)) = r4 :=
          emitRow_writeRows [r1, r2, r3, r4, r5, r6, r7, r8] 3 r4 rfl hwfAll (by simp)
        have h4 : emitRow (writeRows (List.replicate 64 (none : Option Piece)) 7
            [r1, r2, r3, r4, r5, r6, r7, r8]) (7 - ((4 : Nat) : Int)) = r5 :=
          emitRow_writeRows [r1, r2, r3, r4, r5, r6, r7, r8] 4 r5 rfl hwfAll (by simp)
        have h5 : emitRow (writeRows (List.replicate 64 (none : Option Piece)) 7
            [r1, r2, r3, r4, r5, r6, r7, r8]) (7 - ((5 : Nat) : Int)) = r6 :=
          emitRow_writeRows [r1, r2, r3, r4, r5, r6, r7, r8] 5 r6 rfl hwfAll (by simp)
        have h6 : emitRow (writeRows (List.replicate 64 (none : Option Piece)) 7
            [r1, r2, r3, r4, r5, r6, r7, r8]) (7 - ((6 : Nat) : Int)) = r7 :=
          emitRow_writeRows [r1, r2, r3, r4, r5, r6, r7, r8] 6 r7 rfl hwfAll (by simp)
        have h7 : emitRow (writeRows (List.replicate 64 (none : Option Piece)) 7
            [r1, r2, r3, r4, r5, r6, r7, r8]) (7 - ((7 : Nat) : Int)) = r8 :=
          emitRow_writeRows [r1, r2, r3, r4, r5, r6, r7, r8] 7 r8 rfl hwfAll (by simp)
        have hplace : (((List.range 8).map (fun (k : Nat) =>
            emitRow (writeRows (List.replicate 64 (none : Option Piece)) 7
              [r1, r2, r3, r4, r5, r6, r7, r8]) (7 - (k : Int)) ++ ['/'])).flatten).dropLast
            = joinSep '/' [r1, r2, r3, r4, r5, r6, r7, r8] := by
          have hfuse : (List.range 8).map (fun (k : Nat) =>
              emitRow (writeRows (List.replicate 64 (none : Option Piece)) 7
                [r1, r2, r3, r4, r5, r6, r7, r8]) (7 - (k : Int)) ++ ['/'])
              = [r1, r2, r3, r4, r5, r6, r7, r8].map (fun x => x ++ ['/']) := by
            simp only [show List.range 8 = [0, 1, 2, 3, 4, 5, 6, 7] from rfl,
              List.map_cons, List.map_nil]
            rw [h0, h1, h2, h3, h4, h5, h6, h7]
          rw [hfuse, flatten_dropLast_joinSep '/' _ (by simp)]
        simp only [get_fen]
        rw [hsq, hplace, castle_roundtrip f3 hcas, hepEmit, hns5, hns6]
        simp [joinSep, List.append_assoc, show " w ".toList = [' ', 'w', ' '] from rfl,
          show " b ".toList = [' ', 'b', ' '] from rfl]
    next => exact absurd hm (by simp)
  next => exact absurd h (by simp)

/-- Witness for the C8 round trip at the start-position FEN. -/
theorem fen_roundtrip_C8_witness :
    wellFormedFen startFen = true ∧
      (read_fen startFen).map get_fen = some startFen :=
  ⟨by decide, fen_roundtrip_C8 startFen (by decide)⟩
